import Mathlib

/-!
A shallow embedding of the intersection-and-shading engine of the keikan
renderer (`src/render.rs`), together with theorems settling the
specification's claims about it.  Machine doubles are modelled as real
numbers.  The rendering module `render.rs` is translated definition by
definition; the external value types it consumes (`Vec3`, `Ray`,
`Material`, `CastResult`, `Camera`, `Scene` and the `March`/`Trace`
capability traits), whose source files are not part of the rendering
module, are modelled from the specification's data-model section and are
marked as such.
-/

namespace Keikan

noncomputable section

/-- Surface tolerance constant `EPSILON` of render.rs. -/
def EPSILON : ℝ := 0.001

/-- Step budget constant `MAX_STEPS` of render.rs. -/
def MAX_STEPS : ℕ := 128

/-- Far plane constant `MAX_DEPTH` of render.rs, as the double it is
compared against. -/
def MAX_DEPTH : ℝ := 512

/-- Top-level bounce budget constant `MAX_BOUNCES` of render.rs. -/
def MAX_BOUNCES : ℕ := 3

/-- Top-level sample count constant `SAMPLES` of render.rs. -/
def SAMPLES : ℕ := 16

/-- Modelled from the spec: the largest finite double `f64::MAX`, used by
render.rs as the initial minimum of the combined field and, per the
spec's data model, as the "infinite/worst" sentinel distance of the
missing `cast_result.rs`. -/
def FMAX : ℝ := 2 ^ 1024 - 2 ^ 971

/-- Modelled from the spec: the 3D vector value type of the missing
`structures/vec3.rs` (three components; addition, scaling, dot product,
squared length, unit normalization). -/
structure Vec3 where
  x : ℝ
  y : ℝ
  z : ℝ

namespace Vec3

/-- Componentwise addition. -/
def add (a b : Vec3) : Vec3 := ⟨a.x + b.x, a.y + b.y, a.z + b.z⟩

/-- Componentwise subtraction. -/
def sub (a b : Vec3) : Vec3 := ⟨a.x - b.x, a.y - b.y, a.z - b.z⟩

/-- Componentwise (Hadamard) product, the `Vec3 * Vec3` of the source. -/
def hadamard (a b : Vec3) : Vec3 := ⟨a.x * b.x, a.y * b.y, a.z * b.z⟩

/-- Scaling by a scalar, the `Vec3 * f64` of the source. -/
def scale (k : ℝ) (v : Vec3) : Vec3 := ⟨k * v.x, k * v.y, k * v.z⟩

/-- Division by a scalar, the `Vec3 / f64` of the source. -/
def divs (v : Vec3) (k : ℝ) : Vec3 := ⟨v.x / k, v.y / k, v.z / k⟩

/-- Dot product. -/
def dot (a b : Vec3) : ℝ := a.x * b.x + a.y * b.y + a.z * b.z

/-- Squared length. -/
def length_squared (v : Vec3) : ℝ := dot v v

/-- Length. -/
def length (v : Vec3) : ℝ := Real.sqrt (length_squared v)

/-- Unit normalization; degenerate (the zero vector) on the zero vector,
which the spec leaves undefined and callers must avoid. -/
def unit (v : Vec3) : Vec3 := divs v (length v)

/-- The zero vector. -/
def zero : Vec3 := ⟨0, 0, 0⟩

instance : Add Vec3 := ⟨add⟩
instance : Sub Vec3 := ⟨sub⟩
instance : Mul Vec3 := ⟨hadamard⟩
instance : SMul ℝ Vec3 := ⟨scale⟩
instance : HDiv Vec3 ℝ Vec3 := ⟨divs⟩

@[simp] theorem add_mk (a b c d e f : ℝ) :
    (Vec3.mk a b c) + (Vec3.mk d e f) = Vec3.mk (a + d) (b + e) (c + f) := rfl

@[simp] theorem sub_mk (a b c d e f : ℝ) :
    (Vec3.mk a b c) - (Vec3.mk d e f) = Vec3.mk (a - d) (b - e) (c - f) := rfl

@[simp] theorem mul_mk (a b c d e f : ℝ) :
    (Vec3.mk a b c) * (Vec3.mk d e f) = Vec3.mk (a * d) (b * e) (c * f) := rfl

@[simp] theorem smul_mk (k a b c : ℝ) :
    k • (Vec3.mk a b c) = Vec3.mk (k * a) (k * b) (k * c) := rfl

@[simp] theorem div_mk (a b c k : ℝ) :
    (Vec3.mk a b c) / k = Vec3.mk (a / k) (b / k) (c / k) := rfl

@[simp] theorem x_mk (a b c : ℝ) : (Vec3.mk a b c).x = a := rfl
@[simp] theorem y_mk (a b c : ℝ) : (Vec3.mk a b c).y = b := rfl
@[simp] theorem z_mk (a b c : ℝ) : (Vec3.mk a b c).z = c := rfl

@[simp] theorem dot_mk (a b c d e f : ℝ) :
    dot (Vec3.mk a b c) (Vec3.mk d e f) = a * d + b * e + c * f := rfl

@[simp] theorem zero_def : zero = Vec3.mk 0 0 0 := rfl

/-- Normalizing a vector on the z axis divides by the absolute value of
its z component. -/
theorem unit_z (a : ℝ) : unit (Vec3.mk 0 0 a) = Vec3.mk 0 0 (a / |a|) := by
  have hsq : length_squared (Vec3.mk 0 0 a) = a ^ 2 := by
    simp [length_squared, dot]; ring
  have hlen : length (Vec3.mk 0 0 a) = |a| := by
    rw [length, hsq, Real.sqrt_sq_eq_abs]
  simp [unit, hlen, divs]

end Vec3

/-- Modelled from the spec: the ray value type of the missing
`structures/ray.rs` (an origin point and a direction vector that is unit
wherever the solvers consume it). -/
structure Ray where
  origin : Vec3
  direction : Vec3

/-- Modelled from the spec: `Ray::new`. -/
def Ray.new (o d : Vec3) : Ray := ⟨o, d⟩

/-- Modelled from the spec: `Ray::point_at`, `origin + direction * t`. -/
def Ray.point_at (r : Ray) (t : ℝ) : Vec3 := r.origin + t • r.direction

/-- Modelled from the spec: `Ray::through a b`, the ray starting at `a`
aimed at `b` (origin `a`, direction the unit normalization of `b - a`,
as the spec's unit-direction invariant requires). -/
def Ray.through (a b : Vec3) : Ray := ⟨a, Vec3.unit (b - a)⟩

/-- Modelled from the spec: the material record of the missing
`structures/material.rs` (color plus emission, metallic, roughness,
transmission and specular weights). -/
structure Material where
  color : Vec3
  emission : ℝ
  metallic : ℝ
  roughness : ℝ
  transmission : ℝ
  specular : ℝ

/-- Modelled from the spec: `Material::blank`, the zero-filled placeholder
used when no object claims ownership of a hit. -/
def Material.blank : Material := ⟨Vec3.zero, 0, 0, 0, 0, 0⟩

/-- Modelled from the spec: the sentinel sky material that models miss
radiance, with the constant-radiance values the spec's Scenario A uses
(`color = (1,1,1)`, `emission = 1`). -/
def Material.sky : Material := ⟨⟨1, 1, 1⟩, 1, 0, 0, 0, 0⟩

/-- Modelled from the spec: the intersection outcome record of the missing
`structures/cast_result.rs`. -/
structure CastResult where
  hit : Bool
  distance : ℝ
  normal : Vec3
  material : Material

/-- Modelled from the spec: `CastResult::new`. -/
def CastResult.new (h : Bool) (d : ℝ) (n : Vec3) (m : Material) : CastResult :=
  ⟨h, d, n, m⟩

/-- Modelled from the spec: `CastResult::worst`, the definite-miss
sentinel: `hit = false`, the "infinite/worst" distance (`f64::MAX`), a
constant placeholder normal (the constructor takes no ray, so the spec's
"incident ray direction" placeholder is not expressible; the field is
never consumed on a miss), and the sky material that resolves miss
radiance in the shading base case. -/
def CastResult.worst : CastResult := ⟨false, FMAX, Vec3.zero, Material.sky⟩

/-- Modelled from the spec: the `March` capability (an implicit object
exposing `march : point -> signed distance` and a material). -/
structure Marchable where
  march : Vec3 → ℝ
  material : Material

/-- Modelled from the spec: the `Trace` capability (an analytic object
exposing `trace : ray -> (hit, distance, normal)` and a material). -/
structure Traceable where
  trace : Ray → Bool × ℝ × Vec3
  material : Material

/-- Modelled from the spec: the camera of the missing
`structures/camera.rs`; it contributes exactly a ray (render.rs reads
`scene.camera.ray.origin`). -/
structure Camera where
  ray : Ray

/-- Modelled from the spec: the scene record of the missing
`structures/scene.rs`: ordered marchable and traceable collections and a
camera. -/
structure Scene where
  march : List Marchable
  trace : List Traceable
  camera : Camera

/-- The body of the `for object in march.iter()` loop inside the `sdf`
closure of `hit_march` in render.rs: `if distance <= min` update the
running minimum and the owning material. -/
def sdf_step (point : Vec3) (acc : ℝ × Material) (object : Marchable) : ℝ × Material :=
  let distance := object.march point
  if distance ≤ acc.1 then (distance, object.material) else acc

/-- The combined signed-distance closure `sdf` of `hit_march` in
render.rs: fold over the marchable objects keeping the running minimum
distance (initialized to `f64::MAX`) and the material of the object that
set it. -/
def sdf (march : List Marchable) (point : Vec3) : ℝ × Material :=
  march.foldl (sdf_step point) (FMAX, Material.blank)

/-- The `normal` closure of `hit_march` in render.rs: central differences
of the combined field with step `EPSILON` along each axis, normalized. -/
def sdf_normal (march : List Marchable) (p : Vec3) : Vec3 :=
  Vec3.unit
    ⟨(sdf march ⟨p.x + EPSILON, p.y, p.z⟩).1 - (sdf march ⟨p.x - EPSILON, p.y, p.z⟩).1,
     (sdf march ⟨p.x, p.y + EPSILON, p.z⟩).1 - (sdf march ⟨p.x, p.y - EPSILON, p.z⟩).1,
     (sdf march ⟨p.x, p.y, p.z + EPSILON⟩).1 - (sdf march ⟨p.x, p.y, p.z - EPSILON⟩).1⟩

/-- The `for step in 0..MAX_STEPS` loop of `hit_march` in render.rs,
with the remaining step budget as fuel: sample the combined field at the
current depth; at or below `EPSILON` declare a hit at the current depth;
at or above `MAX_DEPTH` break (miss); otherwise advance the depth by the
sampled distance. -/
def march_loop (march : List Marchable) (ray : Ray) :
    ℕ → ℝ → CastResult
  | 0, _ => CastResult.worst
  | fuel + 1, depth =>
    let point := ray.point_at depth
    let dm := sdf march point
    if dm.1 ≤ EPSILON then
      CastResult.new true depth (sdf_normal march point) dm.2
    else if dm.1 ≥ MAX_DEPTH then
      CastResult.worst
    else
      march_loop march ray fuel (depth + dm.1)

/-- `hit_march` of render.rs: run the sphere-marching loop from depth 0
with the full step budget. -/
def hit_march (march : List Marchable) (ray : Ray) : CastResult :=
  march_loop march ray MAX_STEPS 0

/-- The body of the `for object in trace.iter()` loop of `hit_trace` in
render.rs: a candidate replaces the incumbent when it hits, its distance
exceeds `EPSILON`, and either no incumbent hit yet or its distance is
less than or equal to the incumbent's. -/
def trace_step (ray : Ray) (best : CastResult) (object : Traceable) : CastResult :=
  let t := object.trace ray
  if t.1 = true ∧ t.2.1 > EPSILON ∧ (best.hit = false ∨ t.2.1 ≤ best.distance) then
    CastResult.new t.1 t.2.1 t.2.2 object.material
  else best

/-- `hit_trace` of render.rs: fold the candidate update over the
traceable objects, starting from the worst sentinel. -/
def hit_trace (trace : List Traceable) (ray : Ray) : CastResult :=
  trace.foldl (trace_step ray) CastResult.worst

/-- `cast_ray` of render.rs: run both solvers and arbitrate. -/
def cast_ray (scene : Scene) (ray : Ray) : CastResult :=
  let march := hit_march scene.march ray
  let trace := hit_trace scene.trace ray
  if march.hit = false ∧ trace.hit = false then
    CastResult.worst
  else if (trace.hit = true ∧ march.hit = false) ∨ trace.distance ≤ march.distance then
    trace
  else
    march

/-- Modelled from the spec: the random source feeding `sample_sphere`.
The spec requires it "explicitly threaded through calls to keep
seeding/determinism controllable"; it is modelled as an oracle stream of
the accepted unit-ball points (the rejection loop of `sample_sphere`
terminates almost surely and returns the first accepted point, so only
the stream of accepted points is observable). -/
def RNG : Type := ℕ → Vec3

/-- Modelled from the spec: `sample_sphere` of render.rs as consuming the
next accepted point of the oracle stream and advancing the stream. -/
def sample_sphere (g : RNG) : Vec3 × RNG := (g 0, fun n => g (n + 1))

/-- `reflect` of render.rs: `v - 2*(v·n)*n`. -/
def reflect (v n : Vec3) : Vec3 := v - (2 * Vec3.dot v n) • n

/-- `fresnel` of render.rs: Schlick's approximation. -/
def fresnel (cosine ri : ℝ) : ℝ :=
  let r0 := ((1 - ri) / (1 + ri)) ^ 2
  r0 + (1 - r0) * (1 - cosine) ^ 5

/-- `refract` of render.rs: Snell refraction, `none` on total internal
reflection (the source writes through an out-parameter and returns a
boolean; the fallible result is modelled as an `Option`). -/
def refract (v n : Vec3) (ni_over_nt : ℝ) : Option Vec3 :=
  let uv := Vec3.unit v
  let dt := Vec3.dot uv n
  let discriminant := 1 - ni_over_nt * ni_over_nt * (1 - dt * dt)
  if 0 < discriminant then
    some ((ni_over_nt • (uv - dt • n)) - Real.sqrt discriminant • n)
  else
    none

/-- A `for _ in 0..n` sampling loop of `color` in render.rs: run the
iteration body `n` times, threading the random stream through the
iterations in order and summing the produced vectors in loop order. -/
def accumulate (f : RNG → Vec3 × RNG) : ℕ → RNG → Vec3 × RNG
  | 0, g => (Vec3.zero, g)
  | n + 1, g =>
    let acc := accumulate f n g
    let v := f acc.2
    (acc.1 + v.1, v.2)

/-- One iteration of the diffuse loop of `color` in render.rs: scatter
from the hit position towards `position + normal + sample_sphere()`,
recurse through the continuation `rec` with sample count 1, and
contribute `material.color * sample`. -/
def diffuse_iter (rec : Ray → ℕ → RNG → Vec3 × RNG)
    (position nrm : Vec3) (m : Material) (g : RNG) : Vec3 × RNG :=
  let pg := sample_sphere g
  let scatter := Ray.through position (position + nrm + pg.1)
  let sg := rec scatter 1 pg.2
  (m.color * sg.1, sg.2)

/-- One iteration of the rough-specular loop of `color` in render.rs:
scatter towards `position + reflect(direction, normal) + sample_sphere()
* roughness` and recurse through the continuation `rec` with sample
count `max(samples / 2, 1)`. -/
def specular_iter (rec : Ray → ℕ → RNG → Vec3 × RNG)
    (position dir nrm : Vec3) (m : Material) (samples : ℕ) (g : RNG) : Vec3 × RNG :=
  let pg := sample_sphere g
  let scatter := Ray.through position (position + reflect dir nrm + m.roughness • pg.1)
  rec scatter (max (samples / 2) 1) pg.2

/-- `color` of render.rs, the recursive shading integrator, with the
random stream threaded explicitly.  Base case (`!hit || bounce <= 0`):
the cast result's material contributes `color * emission`.  Otherwise the
diffuse loop, the specular branch (one mirror ray at roughness 0, a
sampled loop otherwise) and the stubbed zero transmission term are
combined by the blend expression of render.rs lines 187-206. -/
def color (scene : Scene) : ℕ → Ray → ℕ → RNG → Vec3 × RNG
  | 0, ray, _, g =>
    let c := cast_ray scene ray
    (c.material.emission • c.material.color, g)
  | b + 1, ray, samples, g =>
    let c := cast_ray scene ray
    if c.hit = false then
      (c.material.emission • c.material.color, g)
    else
      let m := c.material
      let position := ray.point_at c.distance
      let dacc := accumulate
        (diffuse_iter (fun r k g2 => color scene b r k g2) position c.normal m)
        samples g
      let diffuse := dacc.1 / (samples : ℝ)
      let sacc :=
        if m.roughness = 0 then
          color scene b
            (Ray.through position (position + reflect ray.direction c.normal))
            samples dacc.2
        else
          let s0 := accumulate
            (specular_iter (fun r k g2 => color scene b r k g2)
              position ray.direction c.normal m samples)
            samples dacc.2
          (s0.1 / (samples : ℝ), s0.2)
      let specular := sacc.1
      let transmission := Vec3.zero
      ((max (1 - m.emission) 0) •
          ((1 - m.metallic) •
              (m.transmission • transmission
                + (1 - m.transmission) • diffuse
                + m.specular • specular)
            + m.metallic • (specular * m.color))
        + m.emission • m.color, sacc.2)

/-- The diffuse term of `color` at a hit, as computed by the diffuse loop
of render.rs: the accumulated `material.color * sample` contributions
divided by the sample count, together with the random stream left after
the loop. -/
def color_diffuse (scene : Scene) (b : ℕ) (ray : Ray) (samples : ℕ)
    (g : RNG) : Vec3 × RNG :=
  let c := cast_ray scene ray
  let position := ray.point_at c.distance
  let dacc := accumulate
    (diffuse_iter (fun r k g2 => color scene b r k g2) position c.normal c.material)
    samples g
  (dacc.1 / (samples : ℝ), dacc.2)

/-- The specular term of `color` at a hit, as computed by the specular
branch of render.rs: at roughness 0 a single mirror-reflected recursive
call with the full sample count and no averaging; otherwise the sampled
loop accumulated and divided by the sample count. -/
def color_specular (scene : Scene) (b : ℕ) (ray : Ray) (samples : ℕ)
    (g : RNG) : Vec3 × RNG :=
  let c := cast_ray scene ray
  let position := ray.point_at c.distance
  if c.material.roughness = 0 then
    color scene b
      (Ray.through position (position + reflect ray.direction c.normal))
      samples g
  else
    let s0 := accumulate
      (specular_iter (fun r k g2 => color scene b r k g2)
        position ray.direction c.normal c.material samples)
      samples g
    (s0.1 / (samples : ℝ), s0.2)

/-- The blend algebra exactly as the specification's contract states it:
`((transmission*m.transmission + diffuse*(1 - m.transmission) +
specular*m.specular) * (1 - m.metallic) + (specular*m.color)*m.metallic)
* max(1 - m.emission, 0) + m.color*m.emission`. -/
def blend_algebra (transmission diffuse specular : Vec3) (m : Material) : Vec3 :=
  (max (1 - m.emission) 0) •
      ((1 - m.metallic) •
          (m.transmission • transmission
            + (1 - m.transmission) • diffuse
            + m.specular • specular)
        + m.metallic • (specular * m.color))
    + m.emission • m.color

/-- `make_ray` of render.rs: center the uv coordinates, place the image
plane at `z = 1 / tan(to_radians(fov) / 2)` and normalize. -/
def make_ray (origin : Vec3) (fov aspect : ℝ) (uv : ℝ × ℝ) : Ray :=
  let xy := (uv.1 - aspect * 0.5, uv.2 - 0.5)
  let z := 1 / Real.tan (fov * (Real.pi / 180) / 2)
  Ray.new origin (Vec3.unit ⟨xy.1, xy.2, -z⟩)

/-- The primary ray built inside `render` of render.rs: uv normalized by
the resolution, the horizontal axis corrected by the aspect ratio, and
`make_ray` invoked with the camera's ray origin and the hard-coded
field of view of 120 degrees. -/
def render_ray (scene : Scene) (uv : ℝ × ℝ) (resolution : ℕ × ℕ) : Ray :=
  let xy0 := (uv.1 / (resolution.1 : ℝ), uv.2 / (resolution.2 : ℝ))
  let xy := (xy0.1 * ((resolution.1 : ℝ) / (resolution.2 : ℝ)), xy0.2)
  make_ray scene.camera.ray.origin 120 ((resolution.1 : ℝ) / (resolution.2 : ℝ)) xy

/-- `render` of render.rs: build the primary ray and invoke the shading
integrator with the top-level bounce and sample budgets. -/
def render (scene : Scene) (uv : ℝ × ℝ) (resolution : ℕ × ℕ) (g : RNG) : Vec3 :=
  (color scene MAX_BOUNCES (render_ray scene uv resolution) SAMPLES g).1

/-- The bounce and sample budgets of the recursive calls `color` spawns
from a call at budgets `(b, samples)`, read off the three recursive call
sites of render.rs: no calls on a miss or at bounce budget 0; otherwise
`samples` diffuse calls at `(b - 1, 1)`, plus either the single mirror
call at `(b - 1, samples)` when the material's roughness is zero
(`mirror = true`) or `samples` rough-specular calls at
`(b - 1, max(samples / 2, 1))`. -/
def child_budgets (hit : Bool) (b samples : ℕ) (mirror : Bool) : List (ℕ × ℕ) :=
  if hit = false ∨ b = 0 then []
  else
    List.replicate samples (b - 1, 1)
      ++ (if mirror then [(b - 1, samples)]
          else List.replicate samples (b - 1, max (samples / 2) 1))

/-! ### Numeric facts about the constants -/

theorem epsilon_pos : (0 : ℝ) < EPSILON := by norm_num [EPSILON]

theorem max_depth_pos : (0 : ℝ) < MAX_DEPTH := by norm_num [MAX_DEPTH]

theorem far_lt_fmax : (MAX_STEPS : ℝ) * MAX_DEPTH < FMAX := by
  norm_num [MAX_STEPS, MAX_DEPTH, FMAX]

theorem fmax_big : (65536 : ℝ) ≤ FMAX := by norm_num [FMAX]

/-! ### Structure of the marching loop -/

theorem march_loop_zero (l : List Marchable) (r : Ray) (depth : ℝ) :
    march_loop l r 0 depth = CastResult.worst := rfl

theorem march_loop_hit (l : List Marchable) (r : Ray) (fuel : ℕ) (depth : ℝ)
    (h : (sdf l (r.point_at depth)).1 ≤ EPSILON) :
    march_loop l r (fuel + 1) depth =
      CastResult.new true depth (sdf_normal l (r.point_at depth))
        (sdf l (r.point_at depth)).2 := by
  rw [march_loop]
  simp only [h, if_pos]

theorem march_loop_far (l : List Marchable) (r : Ray) (fuel : ℕ) (depth : ℝ)
    (h1 : ¬ (sdf l (r.point_at depth)).1 ≤ EPSILON)
    (h2 : (sdf l (r.point_at depth)).1 ≥ MAX_DEPTH) :
    march_loop l r (fuel + 1) depth = CastResult.worst := by
  rw [march_loop]
  simp only [h1, h2, if_neg, if_pos, ite_false, ite_true]

theorem march_loop_step (l : List Marchable) (r : Ray) (fuel : ℕ) (depth : ℝ)
    (h1 : ¬ (sdf l (r.point_at depth)).1 ≤ EPSILON)
    (h2 : ¬ (sdf l (r.point_at depth)).1 ≥ MAX_DEPTH) :
    march_loop l r (fuel + 1) depth =
      march_loop l r fuel (depth + (sdf l (r.point_at depth)).1) := by
  rw [march_loop]
  simp only [h1, h2, ite_false]

/-- A hit reported by the marching loop lies strictly below
`depth + fuel * MAX_DEPTH`: every step that advances does so by less
than `MAX_DEPTH`. -/
theorem march_loop_hit_distance (l : List Marchable) (r : Ray) :
    ∀ (fuel : ℕ) (depth : ℝ), (march_loop l r fuel depth).hit = true →
      (march_loop l r fuel depth).distance < depth + (fuel : ℝ) * MAX_DEPTH := by
  intro fuel
  induction fuel with
  | zero =>
    intro depth h
    rw [march_loop_zero] at h
    simp [CastResult.worst] at h
  | succ n ih =>
    intro depth h
    by_cases h1 : (sdf l (r.point_at depth)).1 ≤ EPSILON
    · rw [march_loop_hit l r n depth h1] at h ⊢
      have hd : (0 : ℝ) < MAX_DEPTH := max_depth_pos
      have : (0 : ℝ) < ((n : ℝ) + 1) * MAX_DEPTH := by positivity
      simp only [CastResult.new]
      push_cast
      nlinarith
    · by_cases h2 : (sdf l (r.point_at depth)).1 ≥ MAX_DEPTH
      · rw [march_loop_far l r n depth h1 h2] at h
        simp [CastResult.worst] at h
      · rw [march_loop_step l r n depth h1 h2] at h ⊢
        have hrec := ih (depth + (sdf l (r.point_at depth)).1) h
        push_neg at h2
        push_cast
        nlinarith

/-- A hit reported by `hit_march` lies strictly below the worst sentinel
distance `f64::MAX`. -/
theorem hit_march_distance_lt (l : List Marchable) (r : Ray)
    (h : (hit_march l r).hit = true) : (hit_march l r).distance < FMAX := by
  have hb := march_loop_hit_distance l r MAX_STEPS 0 h
  have := far_lt_fmax
  unfold hit_march at *
  linarith

/-- The empty marchable collection never reports a hit: the combined
field starts (and stays) at `f64::MAX`, which is past the far plane. -/
theorem hit_march_nil (r : Ray) : hit_march [] r = CastResult.worst := by
  have hsdf : ∀ p : Vec3, sdf [] p = (FMAX, Material.blank) := fun _ => rfl
  have h1 : ¬ (sdf [] (r.point_at 0)).1 ≤ EPSILON := by
    rw [hsdf]; norm_num [FMAX, EPSILON]
  have h2 : (sdf [] (r.point_at 0)).1 ≥ MAX_DEPTH := by
    rw [hsdf]; norm_num [FMAX, MAX_DEPTH]
  have : MAX_STEPS = 127 + 1 := rfl
  rw [hit_march, this, march_loop_far [] r 127 0 h1 h2]

/-- The empty traceable collection reports the worst sentinel. -/
theorem hit_trace_nil (r : Ray) : hit_trace [] r = CastResult.worst := rfl

/-! ### Structure of the trace fold -/

/-- The update taken when the candidate guard holds. -/
theorem trace_step_pos (r : Ray) (b : CastResult) (o : Traceable)
    (hg : (o.trace r).1 = true ∧ (o.trace r).2.1 > EPSILON ∧
      (b.hit = false ∨ (o.trace r).2.1 ≤ b.distance)) :
    trace_step r b o = CastResult.new true (o.trace r).2.1 (o.trace r).2.2 o.material := by
  simp only [trace_step]
  rw [if_pos hg, hg.1]

/-- The update skipped when the candidate guard fails. -/
theorem trace_step_neg (r : Ray) (b : CastResult) (o : Traceable)
    (hg : ¬ ((o.trace r).1 = true ∧ (o.trace r).2.1 > EPSILON ∧
      (b.hit = false ∨ (o.trace r).2.1 ≤ b.distance))) :
    trace_step r b o = b := by
  simp only [trace_step]
  rw [if_neg hg]

/-- The trace fold either leaves its accumulator untouched or ends on a
candidate that hit. -/
theorem trace_fold_hit (r : Ray) :
    ∀ (l : List Traceable) (b : CastResult),
      List.foldl (trace_step r) b l = b ∨ (List.foldl (trace_step r) b l).hit = true := by
  intro l
  induction l with
  | nil => intro b; left; rfl
  | cons o t ih =>
    intro b
    rw [List.foldl_cons]
    by_cases hg : (o.trace r).1 = true ∧ (o.trace r).2.1 > EPSILON ∧
        (b.hit = false ∨ (o.trace r).2.1 ≤ b.distance)
    · rcases ih (trace_step r b o) with h | h
      · right; rw [h, trace_step_pos r b o hg]; rfl
      · right; exact h
    · rw [trace_step_neg r b o hg]
      exact ih b

/-- A missing `hit_trace` result is exactly the worst sentinel. -/
theorem hit_trace_miss (l : List Traceable) (r : Ray)
    (h : (hit_trace l r).hit = false) : hit_trace l r = CastResult.worst := by
  rcases trace_fold_hit r l CastResult.worst with h' | h'
  · exact h'
  · rw [hit_trace] at h; rw [h'] at h; cases h

/-- Once the accumulator has hit, the trace fold keeps a hit and never
increases the stored distance. -/
theorem trace_fold_le (r : Ray) :
    ∀ (l : List Traceable) (b : CastResult), b.hit = true →
      (List.foldl (trace_step r) b l).hit = true ∧
        (List.foldl (trace_step r) b l).distance ≤ b.distance := by
  intro l
  induction l with
  | nil => intro b hb; exact ⟨hb, le_refl _⟩
  | cons o t ih =>
    intro b hb
    rw [List.foldl_cons]
    by_cases hg : (o.trace r).1 = true ∧ (o.trace r).2.1 > EPSILON ∧
        (b.hit = false ∨ (o.trace r).2.1 ≤ b.distance)
    · have hd : (o.trace r).2.1 ≤ b.distance := by
        rcases hg.2.2 with h' | h'
        · rw [hb] at h'; cases h'
        · exact h'
      have hrec := ih (trace_step r b o) (by rw [trace_step_pos r b o hg]; rfl)
      refine ⟨hrec.1, le_trans hrec.2 ?_⟩
      rw [trace_step_pos r b o hg]
      exact hd
    · rw [trace_step_neg r b o hg]
      exact ih b hb

/-- The trace fold ends at or below the distance of every valid
candidate in the list (valid: hits and exceeds `EPSILON`). -/
theorem trace_fold_min (r : Ray) :
    ∀ (l : List Traceable) (b : CastResult) (o' : Traceable), o' ∈ l →
      (o'.trace r).1 = true → (o'.trace r).2.1 > EPSILON →
      (List.foldl (trace_step r) b l).hit = true ∧
        (List.foldl (trace_step r) b l).distance ≤ (o'.trace r).2.1 := by
  intro l
  induction l with
  | nil => intro b o' hmem; cases hmem
  | cons o t ih =>
    intro b o' hmem hv1 hv2
    rw [List.foldl_cons]
    rcases List.mem_cons.mp hmem with rfl | hmem'
    · by_cases hg : (o'.trace r).1 = true ∧ (o'.trace r).2.1 > EPSILON ∧
          (b.hit = false ∨ (o'.trace r).2.1 ≤ b.distance)
      · have hrest := trace_fold_le r t (trace_step r b o')
          (by rw [trace_step_pos r b o' hg]; rfl)
        refine ⟨hrest.1, le_trans hrest.2 ?_⟩
        rw [trace_step_pos r b o' hg]
        exact le_refl _
      · have hbtrue : b.hit = true := by
          by_contra hbf
          have hbf' : b.hit = false := by simpa using hbf
          exact hg ⟨hv1, hv2, Or.inl hbf'⟩
        have hlt : b.distance < (o'.trace r).2.1 := by
          by_contra hnl
          push_neg at hnl
          exact hg ⟨hv1, hv2, Or.inr hnl⟩
        rw [trace_step_neg r b o' hg]
        have hrest := trace_fold_le r t b hbtrue
        exact ⟨hrest.1, le_trans hrest.2 (le_of_lt hlt)⟩
    · exact ih (trace_step r b o) o' hmem' hv1 hv2

/-! ### Structure of the dispatcher -/

/-- A missing `cast_ray` result is exactly the worst sentinel. -/
theorem cast_ray_both_miss (s : Scene) (r : Ray)
    (h1 : (hit_march s.march r).hit = false ∧ (hit_trace s.trace r).hit = false) :
    cast_ray s r = CastResult.worst := by
  simp only [cast_ray]
  rw [if_pos h1]

theorem cast_ray_trace_case (s : Scene) (r : Ray)
    (h1 : ¬ ((hit_march s.march r).hit = false ∧ (hit_trace s.trace r).hit = false))
    (h2 : ((hit_trace s.trace r).hit = true ∧ (hit_march s.march r).hit = false) ∨
      (hit_trace s.trace r).distance ≤ (hit_march s.march r).distance) :
    cast_ray s r = hit_trace s.trace r := by
  simp only [cast_ray]
  rw [if_neg h1, if_pos h2]

theorem cast_ray_march_case (s : Scene) (r : Ray)
    (h1 : ¬ ((hit_march s.march r).hit = false ∧ (hit_trace s.trace r).hit = false))
    (h2 : ¬ (((hit_trace s.trace r).hit = true ∧ (hit_march s.march r).hit = false) ∨
      (hit_trace s.trace r).distance ≤ (hit_march s.march r).distance)) :
    cast_ray s r = hit_march s.march r := by
  simp only [cast_ray]
  rw [if_neg h1, if_neg h2]

theorem cast_ray_miss (s : Scene) (r : Ray)
    (h : (cast_ray s r).hit = false) : cast_ray s r = CastResult.worst := by
  by_cases h1 : (hit_march s.march r).hit = false ∧ (hit_trace s.trace r).hit = false
  · exact cast_ray_both_miss s r h1
  · by_cases h2 : ((hit_trace s.trace r).hit = true ∧ (hit_march s.march r).hit = false) ∨
        (hit_trace s.trace r).distance ≤ (hit_march s.march r).distance
    · have hres := cast_ray_trace_case s r h1 h2
      rw [hres] at h
      rw [hres, hit_trace_miss s.trace r h]
    · have hres := cast_ray_march_case s r h1 h2
      rw [hres] at h
      exfalso
      apply h1
      refine ⟨h, ?_⟩
      by_cases ht : (hit_trace s.trace r).hit = true
      · exact absurd (Or.inl ⟨ht, h⟩) h2
      · simpa using ht

/-! ### Concrete test scenes used to instantiate the claims -/

/-- An arbitrary fixed camera for the test scenes. -/
def cam0 : Camera := ⟨⟨Vec3.zero, ⟨0, 0, 1⟩⟩⟩

/-- A bright smooth emissive test material. -/
def matBright : Material := ⟨⟨2, 2, 2⟩, 1, 0, 0, 0, 0⟩

/-- A red test material. -/
def matRed : Material := ⟨⟨1, 0, 0⟩, 0, 0, 1, 0, 0⟩

/-- A green test material. -/
def matGreen : Material := ⟨⟨0, 1, 0⟩, 0, 0, 1, 0, 0⟩

/-- A marchable half-space with surface `z = 0` (signed distance `p.z`,
1-Lipschitz). -/
def planeM : Marchable := ⟨fun p => p.z, matBright⟩

/-- A scene holding only the half-space. -/
def sceneP : Scene := ⟨[planeM], [], cam0⟩

/-- A ray one unit above the half-space aimed straight down at it. -/
def rayP : Ray := ⟨⟨0, 0, 1⟩, ⟨0, 0, -1⟩⟩

/-- A ray from the origin straight up. -/
def rayZ : Ray := ⟨⟨0, 0, 0⟩, ⟨0, 0, 1⟩⟩

/-- A constant oracle stream for the integrator's random source. -/
def g0 : RNG := fun _ => Vec3.zero

theorem sdf_plane (q : Vec3) (hq : q.z ≤ FMAX) :
    sdf [planeM] q = (q.z, matBright) := by
  simp [sdf, sdf_step, planeM, hq]

theorem plane_normal (p : Vec3) (h2 : p.z + EPSILON ≤ FMAX) :
    sdf_normal [planeM] p = ⟨0, 0, 1⟩ := by
  have he := epsilon_pos
  have hz : p.z ≤ FMAX := by linarith
  have hm : p.z - EPSILON ≤ FMAX := by linarith
  rw [sdf_normal]
  rw [sdf_plane ⟨p.x + EPSILON, p.y, p.z⟩ (by simpa using hz),
      sdf_plane ⟨p.x - EPSILON, p.y, p.z⟩ (by simpa using hz),
      sdf_plane ⟨p.x, p.y + EPSILON, p.z⟩ (by simpa using hz),
      sdf_plane ⟨p.x, p.y - EPSILON, p.z⟩ (by simpa using hz),
      sdf_plane ⟨p.x, p.y, p.z + EPSILON⟩ (by simpa using h2),
      sdf_plane ⟨p.x, p.y, p.z - EPSILON⟩ (by simpa using hm)]
  have hv : (⟨(⟨p.x + EPSILON, p.y, p.z⟩ : Vec3).z - (⟨p.x - EPSILON, p.y, p.z⟩ : Vec3).z,
      (⟨p.x, p.y + EPSILON, p.z⟩ : Vec3).z - (⟨p.x, p.y - EPSILON, p.z⟩ : Vec3).z,
      (⟨p.x, p.y, p.z + EPSILON⟩ : Vec3).z - (⟨p.x, p.y, p.z - EPSILON⟩ : Vec3).z⟩ : Vec3)
      = ⟨0, 0, 2 * EPSILON⟩ := by
    simp only [Vec3.z_mk]
    norm_num
    ring
  simp only []
  rw [hv, Vec3.unit_z]
  have hpos : (0 : ℝ) < 2 * EPSILON := by norm_num [EPSILON]
  rw [abs_of_pos hpos]
  norm_num [EPSILON]

theorem hit_march_plane :
    hit_march [planeM] rayP = CastResult.new true 1 ⟨0, 0, 1⟩ matBright := by
  have e0 : rayP.point_at 0 = ⟨0, 0, 1⟩ := by
    simp [Ray.point_at, rayP]
  have e1 : rayP.point_at (0 + 1) = ⟨0, 0, 0⟩ := by
    simp [Ray.point_at, rayP]
  have s0 : sdf [planeM] (rayP.point_at 0) = (1, matBright) := by
    rw [e0]
    simpa using sdf_plane ⟨0, 0, 1⟩ (by norm_num [FMAX])
  have s1 : sdf [planeM] (rayP.point_at (0 + 1)) = (0, matBright) := by
    rw [e1]
    simpa using sdf_plane ⟨0, 0, 0⟩ (by norm_num [FMAX])
  have h1 : ¬ (sdf [planeM] (rayP.point_at 0)).1 ≤ EPSILON := by
    rw [s0]; norm_num [EPSILON]
  have h2 : ¬ (sdf [planeM] (rayP.point_at 0)).1 ≥ MAX_DEPTH := by
    rw [s0]; norm_num [MAX_DEPTH]
  have h3 : (sdf [planeM] (rayP.point_at (0 + 1))).1 ≤ EPSILON := by
    rw [s1]; norm_num [EPSILON]
  have hms : MAX_STEPS = 126 + 1 + 1 := rfl
  rw [hit_march, hms, march_loop_step _ _ _ _ h1 h2]
  have hd : (0 : ℝ) + (sdf [planeM] (rayP.point_at 0)).1 = 0 + 1 := by rw [s0]
  rw [hd, march_loop_hit _ _ _ _ h3]
  rw [s1, e1, plane_normal ⟨0, 0, 0⟩ (by norm_num [FMAX, EPSILON])]
  norm_num [CastResult.new]

theorem hit_trace_scene_p : hit_trace sceneP.trace rayP = CastResult.worst :=
  hit_trace_nil rayP

theorem cast_ray_plane :
    cast_ray sceneP rayP = CastResult.new true 1 ⟨0, 0, 1⟩ matBright := by
  have hm : hit_march sceneP.march rayP = CastResult.new true 1 ⟨0, 0, 1⟩ matBright :=
    hit_march_plane
  have ht : hit_trace sceneP.trace rayP = CastResult.worst := hit_trace_scene_p
  have h1 : ¬ ((hit_march sceneP.march rayP).hit = false ∧
      (hit_trace sceneP.trace rayP).hit = false) := by
    rw [hm]; simp [CastResult.new]
  have h2 : ¬ (((hit_trace sceneP.trace rayP).hit = true ∧
      (hit_march sceneP.march rayP).hit = false) ∨
      (hit_trace sceneP.trace rayP).distance ≤ (hit_march sceneP.march rayP).distance) := by
    rw [hm, ht]
    simp only [CastResult.new, CastResult.worst]
    push_neg
    constructor
    · intro hc; cases hc
    · norm_num [FMAX]
  rw [cast_ray_march_case sceneP rayP h1 h2, hm]

/-- A marchable half-space with surface `z = 1` seen from below (signed
distance `1 - p.z`, 1-Lipschitz). -/
def marchNear : Marchable := ⟨fun p => 1 - p.z, matRed⟩

/-- A traceable reporting a hit at distance `1.0005` on every ray, within
`EPSILON` of the marchable surface at distance 1. -/
def traceNear : Traceable := ⟨fun _ => (true, 1.0005, ⟨1, 0, 0⟩), matGreen⟩

/-- The near-tie scene for the dispatcher. -/
def sceneTie : Scene := ⟨[marchNear], [traceNear], cam0⟩

theorem sdf_march_near (q : Vec3) (hq : 1 - q.z ≤ FMAX) :
    sdf [marchNear] q = (1 - q.z, matRed) := by
  simp [sdf, sdf_step, marchNear, hq]

theorem march_near_normal (p : Vec3) (h2 : 1 - (p.z - EPSILON) ≤ FMAX) :
    sdf_normal [marchNear] p = ⟨0, 0, -1⟩ := by
  have he := epsilon_pos
  have hz : 1 - p.z ≤ FMAX := by linarith
  have hp : 1 - (p.z + EPSILON) ≤ FMAX := by linarith
  rw [sdf_normal]
  rw [sdf_march_near ⟨p.x + EPSILON, p.y, p.z⟩ (by simpa using hz),
      sdf_march_near ⟨p.x - EPSILON, p.y, p.z⟩ (by simpa using hz),
      sdf_march_near ⟨p.x, p.y + EPSILON, p.z⟩ (by simpa using hz),
      sdf_march_near ⟨p.x, p.y - EPSILON, p.z⟩ (by simpa using hz),
      sdf_march_near ⟨p.x, p.y, p.z + EPSILON⟩ (by simpa using hp),
      sdf_march_near ⟨p.x, p.y, p.z - EPSILON⟩ (by simpa using h2)]
  have hv : (⟨(1 - (⟨p.x + EPSILON, p.y, p.z⟩ : Vec3).z) - (1 - (⟨p.x - EPSILON, p.y, p.z⟩ : Vec3).z),
      (1 - (⟨p.x, p.y + EPSILON, p.z⟩ : Vec3).z) - (1 - (⟨p.x, p.y - EPSILON, p.z⟩ : Vec3).z),
      (1 - (⟨p.x, p.y, p.z + EPSILON⟩ : Vec3).z) - (1 - (⟨p.x, p.y, p.z - EPSILON⟩ : Vec3).z)⟩ : Vec3)
      = ⟨0, 0, -(2 * EPSILON)⟩ := by
    simp only [Vec3.z_mk]
    norm_num
    ring
  simp only []
  rw [hv, Vec3.unit_z]
  have hpos : (0 : ℝ) < 2 * EPSILON := by norm_num [EPSILON]
  rw [abs_neg, abs_of_pos hpos]
  have hne : (2 * EPSILON : ℝ) ≠ 0 := ne_of_gt hpos
  field_simp

theorem hit_march_near :
    hit_march [marchNear] rayZ = CastResult.new true 1 ⟨0, 0, -1⟩ matRed := by
  have e0 : rayZ.point_at 0 = ⟨0, 0, 0⟩ := by
    simp [Ray.point_at, rayZ]
  have e1 : rayZ.point_at (0 + 1) = ⟨0, 0, 1⟩ := by
    simp [Ray.point_at, rayZ]
  have s0 : sdf [marchNear] (rayZ.point_at 0) = (1, matRed) := by
    rw [e0]
    have := sdf_march_near ⟨0, 0, 0⟩ (by norm_num [FMAX])
    simpa using this
  have s1 : sdf [marchNear] (rayZ.point_at (0 + 1)) = (0, matRed) := by
    rw [e1]
    have := sdf_march_near ⟨0, 0, 1⟩ (by norm_num [FMAX])
    simpa using this
  have h1 : ¬ (sdf [marchNear] (rayZ.point_at 0)).1 ≤ EPSILON := by
    rw [s0]; norm_num [EPSILON]
  have h2 : ¬ (sdf [marchNear] (rayZ.point_at 0)).1 ≥ MAX_DEPTH := by
    rw [s0]; norm_num [MAX_DEPTH]
  have h3 : (sdf [marchNear] (rayZ.point_at (0 + 1))).1 ≤ EPSILON := by
    rw [s1]; norm_num [EPSILON]
  have hms : MAX_STEPS = 126 + 1 + 1 := rfl
  rw [hit_march, hms, march_loop_step _ _ _ _ h1 h2]
  have hd : (0 : ℝ) + (sdf [marchNear] (rayZ.point_at 0)).1 = 0 + 1 := by rw [s0]
  rw [hd, march_loop_hit _ _ _ _ h3]
  rw [s1, e1, march_near_normal ⟨0, 0, 1⟩ (by norm_num [FMAX, EPSILON])]
  norm_num [CastResult.new]

theorem hit_trace_near :
    hit_trace [traceNear] rayZ = CastResult.new true 1.0005 ⟨1, 0, 0⟩ matGreen := by
  have hg : (traceNear.trace rayZ).1 = true ∧ (traceNear.trace rayZ).2.1 > EPSILON ∧
      (CastResult.worst.hit = false ∨ (traceNear.trace rayZ).2.1 ≤ CastResult.worst.distance) := by
    refine ⟨rfl, ?_, Or.inl rfl⟩
    norm_num [traceNear, EPSILON]
  have : hit_trace [traceNear] rayZ = trace_step rayZ CastResult.worst traceNear := rfl
  rw [this, trace_step_pos rayZ CastResult.worst traceNear hg]
  rfl

theorem cast_ray_tie :
    cast_ray sceneTie rayZ = CastResult.new true 1 ⟨0, 0, -1⟩ matRed := by
  have hm : hit_march sceneTie.march rayZ = CastResult.new true 1 ⟨0, 0, -1⟩ matRed :=
    hit_march_near
  have ht : hit_trace sceneTie.trace rayZ = CastResult.new true 1.0005 ⟨1, 0, 0⟩ matGreen :=
    hit_trace_near
  have h1 : ¬ ((hit_march sceneTie.march rayZ).hit = false ∧
      (hit_trace sceneTie.trace rayZ).hit = false) := by
    rw [hm]; simp [CastResult.new]
  have h2 : ¬ (((hit_trace sceneTie.trace rayZ).hit = true ∧
      (hit_march sceneTie.march rayZ).hit = false) ∨
      (hit_trace sceneTie.trace rayZ).distance ≤ (hit_march sceneTie.march rayZ).distance) := by
    rw [hm, ht]
    simp only [CastResult.new]
    push_neg
    constructor
    · intro _ hc; cases hc
    · norm_num
  rw [cast_ray_march_case sceneTie rayZ h1 h2, hm]

/-- The far target for the marching far-plane counterexample: a marchable
half-space with surface `z = 600` (signed distance `600 - p.z`). -/
def farPlane : Marchable := ⟨fun p => 600 - p.z, matRed⟩

/-- A marchable at constant distance 400 from everywhere (0-Lipschitz),
keeping the combined field's steps below the far plane. -/
def sideWall : Marchable := ⟨fun _ => 400, matGreen⟩

theorem sdf_far_near (q : Vec3) (h : (400 : ℝ) ≤ 600 - q.z) (hF : 600 - q.z ≤ FMAX) :
    sdf [farPlane, sideWall] q = (400, matGreen) := by
  simp [sdf, sdf_step, farPlane, sideWall, hF, h]

theorem sdf_far_far (q : Vec3) (h : ¬ (400 : ℝ) ≤ 600 - q.z) (hF : 600 - q.z ≤ FMAX) :
    sdf [farPlane, sideWall] q = (600 - q.z, matRed) := by
  simp [sdf, sdf_step, farPlane, sideWall, hF, h]

theorem far_normal (p : Vec3) (hnear : ¬ (400 : ℝ) ≤ 600 - (p.z - EPSILON)) :
    sdf_normal [farPlane, sideWall] p = ⟨0, 0, -1⟩ := by
  have he := epsilon_pos
  have hz : ¬ (400 : ℝ) ≤ 600 - p.z := by
    intro hc; apply hnear; linarith
  have hp : ¬ (400 : ℝ) ≤ 600 - (p.z + EPSILON) := by
    intro hc; apply hnear; linarith
  have hFz : 600 - p.z ≤ FMAX := by
    have := fmax_big; push_neg at hz; linarith
  have hFp : 600 - (p.z + EPSILON) ≤ FMAX := by push_neg at hp; have := fmax_big; linarith
  have hFm : 600 - (p.z - EPSILON) ≤ FMAX := by push_neg at hnear; have := fmax_big; linarith
  rw [sdf_normal]
  rw [sdf_far_far ⟨p.x + EPSILON, p.y, p.z⟩ (by simpa using hz) (by simpa using hFz),
      sdf_far_far ⟨p.x - EPSILON, p.y, p.z⟩ (by simpa using hz) (by simpa using hFz),
      sdf_far_far ⟨p.x, p.y + EPSILON, p.z⟩ (by simpa using hz) (by simpa using hFz),
      sdf_far_far ⟨p.x, p.y - EPSILON, p.z⟩ (by simpa using hz) (by simpa using hFz),
      sdf_far_far ⟨p.x, p.y, p.z + EPSILON⟩ (by simpa using hp) (by simpa using hFp),
      sdf_far_far ⟨p.x, p.y, p.z - EPSILON⟩ (by simpa using hnear) (by simpa using hFm)]
  have hv : (⟨(600 - (⟨p.x + EPSILON, p.y, p.z⟩ : Vec3).z) - (600 - (⟨p.x - EPSILON, p.y, p.z⟩ : Vec3).z),
      (600 - (⟨p.x, p.y + EPSILON, p.z⟩ : Vec3).z) - (600 - (⟨p.x, p.y - EPSILON, p.z⟩ : Vec3).z),
      (600 - (⟨p.x, p.y, p.z + EPSILON⟩ : Vec3).z) - (600 - (⟨p.x, p.y, p.z - EPSILON⟩ : Vec3).z)⟩ : Vec3)
      = ⟨0, 0, -(2 * EPSILON)⟩ := by
    simp only [Vec3.z_mk]
    norm_num
    ring
  simp only []
  rw [hv, Vec3.unit_z]
  have hpos : (0 : ℝ) < 2 * EPSILON := by norm_num [EPSILON]
  rw [abs_neg, abs_of_pos hpos]
  field_simp

/-- The marching solver hits the far target at accumulated depth 600,
well past the 512 far plane, because the far-plane test is applied to
the sampled field value, never to the accumulated depth. -/
theorem hit_march_far :
    hit_march [farPlane, sideWall] rayZ = CastResult.new true 600 ⟨0, 0, -1⟩ matRed := by
  have e0 : rayZ.point_at 0 = ⟨0, 0, 0⟩ := by simp [Ray.point_at, rayZ]
  have e1 : rayZ.point_at (0 + 400) = ⟨0, 0, 400⟩ := by simp [Ray.point_at, rayZ]
  have e2 : rayZ.point_at (0 + 400 + 200) = ⟨0, 0, 600⟩ := by
    simp [Ray.point_at, rayZ]
    norm_num
  have s0 : sdf [farPlane, sideWall] (rayZ.point_at 0) = (400, matGreen) := by
    rw [e0]
    have := sdf_far_near ⟨0, 0, 0⟩ (by norm_num) (by norm_num [FMAX])
    simpa using this
  have s1 : sdf [farPlane, sideWall] (rayZ.point_at (0 + 400)) = (200, matRed) := by
    rw [e1]
    have := sdf_far_far ⟨0, 0, 400⟩ (by norm_num) (by norm_num [FMAX])
    norm_num at this
    exact this
  have s2 : sdf [farPlane, sideWall] (rayZ.point_at (0 + 400 + 200)) = (0, matRed) := by
    rw [e2]
    have := sdf_far_far ⟨0, 0, 600⟩ (by norm_num) (by norm_num [FMAX])
    norm_num at this
    exact this
  have h10 : ¬ (sdf [farPlane, sideWall] (rayZ.point_at 0)).1 ≤ EPSILON := by
    rw [s0]; norm_num [EPSILON]
  have h20 : ¬ (sdf [farPlane, sideWall] (rayZ.point_at 0)).1 ≥ MAX_DEPTH := by
    rw [s0]; norm_num [MAX_DEPTH]
  have h11 : ¬ (sdf [farPlane, sideWall] (rayZ.point_at (0 + 400))).1 ≤ EPSILON := by
    rw [s1]; norm_num [EPSILON]
  have h21 : ¬ (sdf [farPlane, sideWall] (rayZ.point_at (0 + 400))).1 ≥ MAX_DEPTH := by
    rw [s1]; norm_num [MAX_DEPTH]
  have h32 : (sdf [farPlane, sideWall] (rayZ.point_at (0 + 400 + 200))).1 ≤ EPSILON := by
    rw [s2]; norm_num [EPSILON]
  have hms : MAX_STEPS = 125 + 1 + 1 + 1 := rfl
  rw [hit_march, hms, march_loop_step _ _ _ _ h10 h20]
  have hd0 : (0 : ℝ) + (sdf [farPlane, sideWall] (rayZ.point_at 0)).1 = 0 + 400 := by rw [s0]
  rw [hd0, march_loop_step _ _ _ _ h11 h21]
  have hd1 : (0 : ℝ) + 400 + (sdf [farPlane, sideWall] (rayZ.point_at (0 + 400))).1
      = 0 + 400 + 200 := by rw [s1]
  rw [hd1, march_loop_hit _ _ _ _ h32]
  rw [s2, e2, far_normal ⟨0, 0, 600⟩ (by norm_num [EPSILON])]
  norm_num [CastResult.new]

/-- Marching from a point exactly on a surface re-detects that surface at
depth 0 on the very first step, whatever the ray's direction: the spawn
point of secondary rays is not biased outward. -/
theorem hit_march_trapped :
    hit_march [planeM] rayZ = CastResult.new true 0 ⟨0, 0, 1⟩ matBright := by
  have e0 : rayZ.point_at 0 = ⟨0, 0, 0⟩ := by simp [Ray.point_at, rayZ]
  have s0 : sdf [planeM] (rayZ.point_at 0) = (0, matBright) := by
    rw [e0]
    simpa using sdf_plane ⟨0, 0, 0⟩ (by norm_num [FMAX])
  have h0 : (sdf [planeM] (rayZ.point_at 0)).1 ≤ EPSILON := by
    rw [s0]; norm_num [EPSILON]
  have hms : MAX_STEPS = 127 + 1 := rfl
  rw [hit_march, hms, march_loop_hit _ _ _ _ h0]
  rw [s0, e0, plane_normal ⟨0, 0, 0⟩ (by norm_num [FMAX, EPSILON])]

/-! ### Structure of the shading integrator -/

theorem color_zero (s : Scene) (r : Ray) (samples : ℕ) (g : RNG) :
    color s 0 r samples g =
      ((cast_ray s r).material.emission • (cast_ray s r).material.color, g) := by
  rw [color]

theorem color_succ_miss (s : Scene) (b : ℕ) (r : Ray) (samples : ℕ) (g : RNG)
    (h : (cast_ray s r).hit = false) :
    color s (b + 1) r samples g =
      ((cast_ray s r).material.emission • (cast_ray s r).material.color, g) := by
  rw [color]
  simp only [h, if_pos]

theorem color_succ_hit (s : Scene) (b : ℕ) (r : Ray) (samples : ℕ) (g : RNG)
    (h : (cast_ray s r).hit = true) :
    color s (b + 1) r samples g =
      (blend_algebra Vec3.zero
          (color_diffuse s b r samples g).1
          (color_specular s b r samples (color_diffuse s b r samples g).2).1
          (cast_ray s r).material,
        (color_specular s b r samples (color_diffuse s b r samples g).2).2) := by
  have h' : ¬ ((cast_ray s r).hit = false) := by simp [h]
  rw [color]
  rw [if_neg h']
  rfl

/-- The empty test scene. -/
def sceneE : Scene := ⟨[], [], cam0⟩

/-- Two traceables reporting hits at the same distance 5 with different
materials. -/
def tieT1 : Traceable := ⟨fun _ => (true, 5, ⟨0, 0, 1⟩), matRed⟩

/-- The second, later-iterated traceable of the tie. -/
def tieT2 : Traceable := ⟨fun _ => (true, 5, ⟨0, 0, 1⟩), matGreen⟩

/-- Two marchables at the same constant distance 5 with different
materials. -/
def tieM1 : Marchable := ⟨fun _ => 5, matRed⟩

/-- The second, later-iterated marchable of the tie. -/
def tieM2 : Marchable := ⟨fun _ => 5, matGreen⟩

/-- Every pair in `child_budgets` decrements the bounce budget by
exactly one and keeps the sample count at most the parent's. -/
theorem child_budgets_mem (h m : Bool) (b samples : ℕ) (p : ℕ × ℕ)
    (hp : p ∈ child_budgets h b samples m) :
    h = true ∧ 1 ≤ b ∧ p.1 = b - 1 ∧ p.2 ≤ samples := by
  by_cases hc : h = false ∨ b = 0
  · rw [child_budgets, if_pos hc] at hp
    cases hp
  · push_neg at hc
    have hh : h = true := by
      cases h
      · exact absurd rfl hc.1
      · rfl
    have hb : 1 ≤ b := Nat.one_le_iff_ne_zero.mpr hc.2
    rw [child_budgets, if_neg (by push_neg; exact hc)] at hp
    rcases List.mem_append.mp hp with h1 | h2
    · obtain ⟨hs, hpp⟩ := List.mem_replicate.mp h1
      refine ⟨hh, hb, by rw [hpp], ?_⟩
      rw [hpp]
      exact Nat.one_le_iff_ne_zero.mpr hs
    · cases m with
      | true =>
        simp only [if_pos] at h2
        rw [List.mem_singleton] at h2
        exact ⟨hh, hb, by rw [h2], by rw [h2]⟩
      | false =>
        simp only [Bool.false_eq_true, if_neg] at h2
        obtain ⟨hs, hpp⟩ := List.mem_replicate.mp h2
        refine ⟨hh, hb, by rw [hpp], ?_⟩
        rw [hpp]
        have : 1 ≤ samples := Nat.one_le_iff_ne_zero.mpr hs
        omega

/-! ### The claims -/

/-- C1: at every hit, the radiance returned by the shading integrator is
exactly the additive-specular layered blend
`((transmission*m.transmission + diffuse*(1 - m.transmission) +
specular*m.specular)*(1 - m.metallic) + (specular*m.color)*m.metallic) *
max(1 - m.emission, 0) + m.color*m.emission` of the diffuse, specular
and (zero) transmission terms it computed. -/
theorem shading_blend_algebra (scene : Scene) (ray : Ray) (b samples : ℕ) (g : RNG)
    (hhit : (cast_ray scene ray).hit = true) :
    (color scene (b + 1) ray samples g).1 =
      blend_algebra Vec3.zero
        (color_diffuse scene b ray samples g).1
        (color_specular scene b ray samples (color_diffuse scene b ray samples g).2).1
        (cast_ray scene ray).material := by
  rw [color_succ_hit scene b ray samples g hhit]

/-- Witness for C1 on the half-space scene, where the primary ray hits. -/
theorem shading_blend_algebra_witness :
    (cast_ray sceneP rayP).hit = true ∧
      (color sceneP (0 + 1) rayP 2 g0).1 =
        blend_algebra Vec3.zero
          (color_diffuse sceneP 0 rayP 2 g0).1
          (color_specular sceneP 0 rayP 2 (color_diffuse sceneP 0 rayP 2 g0).2).1
          (cast_ray sceneP rayP).material := by
  have hhit : (cast_ray sceneP rayP).hit = true := by rw [cast_ray_plane]; rfl
  exact ⟨hhit, shading_blend_algebra sceneP rayP 0 2 g0 hhit⟩

/-- C2 (amended): the dispatcher returns the worst sentinel when both
solvers miss, the sole hitting solver's result when exactly one hits,
and on a double hit the trace result exactly when
`trace.distance ≤ march.distance`, the march result when
`march.distance < trace.distance` — the tie-break is exact, not within
`EPSILON`. -/
theorem dispatcher_resolution (scene : Scene) (ray : Ray) :
    ((hit_march scene.march ray).hit = false → (hit_trace scene.trace ray).hit = false →
        cast_ray scene ray = CastResult.worst) ∧
      ((hit_trace scene.trace ray).hit = true → (hit_march scene.march ray).hit = false →
        cast_ray scene ray = hit_trace scene.trace ray) ∧
      ((hit_march scene.march ray).hit = true → (hit_trace scene.trace ray).hit = false →
        cast_ray scene ray = hit_march scene.march ray) ∧
      ((hit_march scene.march ray).hit = true → (hit_trace scene.trace ray).hit = true →
        (hit_trace scene.trace ray).distance ≤ (hit_march scene.march ray).distance →
        cast_ray scene ray = hit_trace scene.trace ray) ∧
      ((hit_march scene.march ray).hit = true → (hit_trace scene.trace ray).hit = true →
        (hit_march scene.march ray).distance < (hit_trace scene.trace ray).distance →
        cast_ray scene ray = hit_march scene.march ray) := by
  refine ⟨?_, ?_, ?_, ?_, ?_⟩
  · intro hm ht
    exact cast_ray_both_miss scene ray ⟨hm, ht⟩
  · intro ht hm
    apply cast_ray_trace_case scene ray
    · intro hc
      rw [ht] at hc
      simp at hc
    · exact Or.inl ⟨ht, hm⟩
  · intro hm ht
    have hworst := hit_trace_miss scene.trace ray ht
    apply cast_ray_march_case scene ray
    · intro hc
      rw [hm] at hc
      simp at hc
    · intro hc
      rcases hc with ⟨ht', _⟩ | hle
      · rw [ht] at ht'
        exact absurd ht' (by decide)
      · have hlt := hit_march_distance_lt scene.march ray hm
        rw [hworst] at hle
        have hfd : (CastResult.worst.distance : ℝ) = FMAX := rfl
        rw [hfd] at hle
        linarith
  · intro _ ht hle
    apply cast_ray_trace_case scene ray
    · intro hc
      rw [ht] at hc
      simp at hc
    · exact Or.inr hle
  · intro hm _ hlt
    apply cast_ray_march_case scene ray
    · intro hc
      rw [hm] at hc
      simp at hc
    · intro hc
      rcases hc with ⟨_, hm'⟩ | hle
      · rw [hm] at hm'
        exact absurd hm' (by decide)
      · linarith

/-- Counterexample for C2 as stated: both solvers hit at distances equal
within `EPSILON` (1 and 1.0005), yet the dispatcher returns the marching
result, not the traceable's. -/
theorem dispatcher_eps_tie_counterexample :
    |(1.0005 : ℝ) - 1| ≤ EPSILON ∧
      hit_march sceneTie.march rayZ = CastResult.new true 1 ⟨0, 0, -1⟩ matRed ∧
      hit_trace sceneTie.trace rayZ = CastResult.new true 1.0005 ⟨1, 0, 0⟩ matGreen ∧
      cast_ray sceneTie rayZ = CastResult.new true 1 ⟨0, 0, -1⟩ matRed ∧
      CastResult.new true 1 ⟨0, 0, -1⟩ matRed ≠
        CastResult.new true 1.0005 ⟨1, 0, 0⟩ matGreen := by
  refine ⟨?_, hit_march_near, hit_trace_near, cast_ray_tie, ?_⟩
  · rw [abs_of_pos (by norm_num : (0 : ℝ) < 1.0005 - 1)]
    norm_num [EPSILON]
  intro h
  have hd := congrArg CastResult.distance h
  norm_num [CastResult.new] at hd

/-- Witness for C2 on the empty scene, where both solvers miss. -/
theorem dispatcher_resolution_witness :
    cast_ray sceneE rayZ = CastResult.worst := by
  have hm : (hit_march sceneE.march rayZ).hit = false := by
    rw [show sceneE.march = [] from rfl, hit_march_nil]
    rfl
  have ht : (hit_trace sceneE.trace rayZ).hit = false := rfl
  exact (dispatcher_resolution sceneE rayZ).1 hm ht

/-- C3 (amended): the marching solver declares a miss when the sampled
combined field value (not the accumulated depth) reaches `MAX_DEPTH`,
and when the step budget is exhausted; `hit_march` runs the loop with
budget `MAX_STEPS` from depth 0. -/
theorem march_miss_conditions (l : List Marchable) (r : Ray) (fuel : ℕ) (depth : ℝ) :
    march_loop l r 0 depth = CastResult.worst ∧
      (¬ (sdf l (r.point_at depth)).1 ≤ EPSILON →
        (sdf l (r.point_at depth)).1 ≥ MAX_DEPTH →
        march_loop l r (fuel + 1) depth = CastResult.worst) ∧
      hit_march l r = march_loop l r MAX_STEPS 0 :=
  ⟨march_loop_zero l r depth, fun h1 h2 => march_loop_far l r fuel depth h1 h2, rfl⟩

/-- Counterexample for C3 as stated: the solver hits at accumulated depth
600, which is at or past the ≈512 far plane, instead of declaring the
miss the claim requires. -/
theorem march_far_plane_counterexample :
    hit_march [farPlane, sideWall] rayZ = CastResult.new true 600 ⟨0, 0, -1⟩ matRed ∧
      (600 : ℝ) ≥ MAX_DEPTH ∧
      (CastResult.new true 600 ⟨0, 0, -1⟩ matRed).hit = true :=
  ⟨hit_march_far, by norm_num [MAX_DEPTH], rfl⟩

/-- Witness for C3: a field value of 600 at the first sample point makes
the solver miss immediately. -/
theorem march_miss_conditions_witness :
    march_loop [farPlane] rayZ (0 + 1) 0 = CastResult.worst := by
  have e0 : rayZ.point_at 0 = ⟨0, 0, 0⟩ := by simp [Ray.point_at, rayZ]
  have s0 : sdf [farPlane] (rayZ.point_at 0) = (600, matRed) := by
    rw [e0]
    norm_num [sdf, sdf_step, farPlane, FMAX]
  exact (march_miss_conditions [farPlane] rayZ 0 0).2.1
    (by rw [s0]; norm_num [EPSILON]) (by rw [s0]; norm_num [MAX_DEPTH])

/-- C4 (amended): the trace solver starts from the worst sentinel; a
candidate replaces the incumbent exactly when it hits, its distance
exceeds `EPSILON`, and no incumbent hit yet or its distance is at most
the incumbent's — so equal distances favor the later-iterated object —
and the returned result hits and is at or below the distance of every
valid candidate. -/
theorem trace_nearest_valid (l : List Traceable) (o : Traceable) (r : Ray) :
    hit_trace [] r = CastResult.worst ∧
      hit_trace (l ++ [o]) r =
        (if (o.trace r).1 = true ∧ (o.trace r).2.1 > EPSILON ∧
            ((hit_trace l r).hit = false ∨ (o.trace r).2.1 ≤ (hit_trace l r).distance)
         then CastResult.new true (o.trace r).2.1 (o.trace r).2.2 o.material
         else hit_trace l r) ∧
      (∀ o' ∈ l ++ [o], (o'.trace r).1 = true → (o'.trace r).2.1 > EPSILON →
        (hit_trace (l ++ [o]) r).hit = true ∧
          (hit_trace (l ++ [o]) r).distance ≤ (o'.trace r).2.1) := by
  refine ⟨rfl, ?_, ?_⟩
  · simp only [hit_trace]
    rw [List.foldl_append, List.foldl_cons, List.foldl_nil]
    by_cases hg : (o.trace r).1 = true ∧ (o.trace r).2.1 > EPSILON ∧
        ((List.foldl (trace_step r) CastResult.worst l).hit = false ∨
          (o.trace r).2.1 ≤ (List.foldl (trace_step r) CastResult.worst l).distance)
    · rw [if_pos hg]
      exact trace_step_pos r (List.foldl (trace_step r) CastResult.worst l) o hg
    · rw [if_neg hg]
      exact trace_step_neg r (List.foldl (trace_step r) CastResult.worst l) o hg
  · intro o' hmem hv1 hv2
    exact trace_fold_min r (l ++ [o]) CastResult.worst o' hmem hv1 hv2

/-- Counterexample for C4 as stated: two traceables hit at the same
distance 5, and the result carries the material of the later-iterated
object, not the earlier one the claim requires. -/
theorem trace_tie_counterexample :
    (tieT1.trace rayZ).2.1 = (tieT2.trace rayZ).2.1 ∧
      (hit_trace [tieT1, tieT2] rayZ).material = matGreen ∧
      matGreen ≠ matRed := by
  refine ⟨rfl, ?_, ?_⟩
  · have hg1 : (tieT1.trace rayZ).1 = true ∧ (tieT1.trace rayZ).2.1 > EPSILON ∧
        (CastResult.worst.hit = false ∨
          (tieT1.trace rayZ).2.1 ≤ CastResult.worst.distance) :=
      ⟨rfl, by norm_num [tieT1, EPSILON], Or.inl rfl⟩
    have e1 : trace_step rayZ CastResult.worst tieT1
        = CastResult.new true 5 ⟨0, 0, 1⟩ matRed := by
      rw [trace_step_pos rayZ CastResult.worst tieT1 hg1]
      rfl
    have hg2 : (tieT2.trace rayZ).1 = true ∧ (tieT2.trace rayZ).2.1 > EPSILON ∧
        ((CastResult.new true 5 ⟨0, 0, 1⟩ matRed).hit = false ∨
          (tieT2.trace rayZ).2.1 ≤ (CastResult.new true 5 ⟨0, 0, 1⟩ matRed).distance) :=
      ⟨rfl, by norm_num [tieT2, EPSILON], Or.inr (by norm_num [tieT2, CastResult.new])⟩
    have h1 : hit_trace [tieT1, tieT2] rayZ
        = trace_step rayZ (trace_step rayZ CastResult.worst tieT1) tieT2 := rfl
    rw [h1, e1, trace_step_pos rayZ (CastResult.new true 5 ⟨0, 0, 1⟩ matRed) tieT2 hg2]
    rfl
  · intro h
    simp [matGreen, matRed] at h

/-- Witness for C4: the valid candidate `tieT1` bounds the result's
distance. -/
theorem trace_nearest_valid_witness :
    (hit_trace ([tieT1] ++ [tieT2]) rayZ).hit = true ∧
      (hit_trace ([tieT1] ++ [tieT2]) rayZ).distance ≤ (tieT1.trace rayZ).2.1 :=
  (trace_nearest_valid [tieT1] tieT2 rayZ).2.2 tieT1 (by simp) rfl
    (by norm_num [tieT1, EPSILON])

/-- C5 (amended): the combined field's value is the running minimum of
the objects' values folded from the `f64::MAX` initial accumulator, and
appending an object overwrites the result exactly when its value is at
most the previous minimum — so ties attach the material of the
later-iterated minimizing object. -/
theorem combined_sdf_min (l : List Marchable) (o : Marchable) (p : Vec3) :
    (sdf l p).1 = List.foldl min FMAX (l.map (fun ob => ob.march p)) ∧
      sdf (l ++ [o]) p =
        (if o.march p ≤ (sdf l p).1 then (o.march p, o.material) else sdf l p) := by
  constructor
  · have hgen : ∀ (l' : List Marchable) (acc : ℝ × Material),
        (List.foldl (sdf_step p) acc l').1
          = List.foldl min acc.1 (l'.map (fun ob => ob.march p)) := by
      intro l'
      induction l' with
      | nil => intro acc; rfl
      | cons ob t ih =>
        intro acc
        rw [List.map_cons, List.foldl_cons, List.foldl_cons, ih]
        have hstep : (sdf_step p acc ob).1 = min acc.1 (ob.march p) := by
          simp only [sdf_step]
          by_cases hd : ob.march p ≤ acc.1
          · rw [if_pos hd]
            exact (min_eq_right hd).symm
          · rw [if_neg hd]
            exact (min_eq_left (le_of_not_le hd)).symm
        rw [hstep]
    exact hgen l (FMAX, Material.blank)
  · simp only [sdf]
    rw [List.foldl_append, List.foldl_cons, List.foldl_nil]
    simp only [sdf_step]

/-- Counterexample for C5 as stated: two marchables at the same distance
5, and the combined field attaches the material of the later-iterated
object, not the first the claim requires. -/
theorem combined_sdf_tie_counterexample :
    tieM1.march Vec3.zero = tieM2.march Vec3.zero ∧
      (sdf [tieM1, tieM2] Vec3.zero).2 = matGreen ∧
      matGreen ≠ matRed := by
  refine ⟨rfl, ?_, ?_⟩
  · have h5 : (5 : ℝ) ≤ FMAX := by norm_num [FMAX]
    simp [sdf, sdf_step, tieM1, tieM2, h5]
  · intro h
    simp [matGreen, matRed] at h

/-- C6 (amended): on a dispatcher miss the integrator returns the sky
material's `color * emission` at any bounce budget; at bounce budget 0
it returns `color * emission` of the cast result's material — the hit
material when something was hit, not the sky's — and on an empty scene
`render` returns exactly `sky.color * sky.emission`. -/
theorem base_case_radiance (scene : Scene) (ray : Ray) (b samples : ℕ) (g : RNG)
    (uv : ℝ × ℝ) (res : ℕ × ℕ) :
    ((cast_ray scene ray).hit = false →
        (color scene b ray samples g).1 = Material.sky.emission • Material.sky.color) ∧
      ((color scene 0 ray samples g).1 =
        (cast_ray scene ray).material.emission • (cast_ray scene ray).material.color) ∧
      (scene.march = [] → scene.trace = [] →
        render scene uv res g = Material.sky.emission • Material.sky.color) := by
  refine ⟨?_, ?_, ?_⟩
  · intro hmiss
    have hw := cast_ray_miss scene ray hmiss
    cases b with
    | zero =>
      rw [color_zero, hw]
      rfl
    | succ n =>
      rw [color_succ_miss scene n ray samples g hmiss, hw]
      rfl
  · rw [color_zero]
  · intro hm ht
    have h1 : hit_march scene.march (render_ray scene uv res) = CastResult.worst := by
      rw [hm, hit_march_nil]
    have h2 : hit_trace scene.trace (render_ray scene uv res) = CastResult.worst := by
      rw [ht, hit_trace_nil]
    have hmiss : (cast_ray scene (render_ray scene uv res)).hit = false := by
      rw [cast_ray_both_miss scene _ ⟨by rw [h1]; rfl, by rw [h2]; rfl⟩]
      rfl
    have hw := cast_ray_miss scene _ hmiss
    rw [render, show MAX_BOUNCES = 2 + 1 from rfl,
      color_succ_miss _ _ _ _ _ hmiss, hw]
    rfl

/-- Counterexample for C6 as stated: at bounce budget 0 with a hit, the
integrator returns the hit material's `color * emission` `(2,2,2)`, not
the value from the sky material carried by a miss result `(1,1,1)`. -/
theorem base_case_material_counterexample :
    (cast_ray sceneP rayP).hit = true ∧
      (color sceneP 0 rayP 16 g0).1 = (⟨2, 2, 2⟩ : Vec3) ∧
      Material.sky.emission • Material.sky.color = (⟨1, 1, 1⟩ : Vec3) ∧
      (⟨2, 2, 2⟩ : Vec3) ≠ (⟨1, 1, 1⟩ : Vec3) := by
  refine ⟨by rw [cast_ray_plane]; rfl, ?_, by norm_num [Material.sky], ?_⟩
  · rw [color_zero, cast_ray_plane]
    norm_num [CastResult.new, matBright]
  · intro h
    simp at h

/-- Witness for C6 on the empty scene. -/
theorem base_case_radiance_witness :
    render sceneE ((0 : ℝ), (0 : ℝ)) ((1 : ℕ), (1 : ℕ)) g0
      = Material.sky.emission • Material.sky.color :=
  (base_case_radiance sceneE rayZ 0 16 g0 (0, 0) (1, 1)).2.2 rfl rfl

/-- C7: at a hit, the specular term is the single mirror-reflected
recursive call at `bounce - 1` with the full remaining sample count and
no averaging when roughness is 0, and otherwise the loop of `samples`
perturbed reflections, each recursing at `bounce - 1` with
`max(samples / 2, 1)` samples, accumulated and divided by `samples`;
the hit radiance blends exactly this specular term. -/
theorem specular_term_structure (scene : Scene) (ray : Ray) (b samples : ℕ) (g : RNG)
    (hhit : (cast_ray scene ray).hit = true) :
    ((cast_ray scene ray).material.roughness = 0 →
        color_specular scene b ray samples g =
          color scene b
            (Ray.through (ray.point_at (cast_ray scene ray).distance)
              (ray.point_at (cast_ray scene ray).distance
                + reflect ray.direction (cast_ray scene ray).normal))
            samples g) ∧
      ((cast_ray scene ray).material.roughness ≠ 0 →
        color_specular scene b ray samples g =
          ((accumulate (specular_iter (fun r2 k g2 => color scene b r2 k g2)
              (ray.point_at (cast_ray scene ray).distance) ray.direction
              (cast_ray scene ray).normal (cast_ray scene ray).material samples)
              samples g).1 / (samples : ℝ),
            (accumulate (specular_iter (fun r2 k g2 => color scene b r2 k g2)
              (ray.point_at (cast_ray scene ray).distance) ray.direction
              (cast_ray scene ray).normal (cast_ray scene ray).material samples)
              samples g).2)) ∧
      (color scene (b + 1) ray samples g).1 =
        blend_algebra Vec3.zero (color_diffuse scene b ray samples g).1
          (color_specular scene b ray samples (color_diffuse scene b ray samples g).2).1
          (cast_ray scene ray).material := by
  refine ⟨?_, ?_, ?_⟩
  · intro hr
    simp only [color_specular]
    rw [if_pos hr]
  · intro hr
    simp only [color_specular]
    rw [if_neg hr]
  · rw [color_succ_hit scene b ray samples g hhit]

/-- Witness for C7 on the half-space scene, whose material has
roughness 0. -/
theorem specular_term_structure_witness :
    (cast_ray sceneP rayP).hit = true ∧
      (cast_ray sceneP rayP).material.roughness = 0 ∧
      color_specular sceneP 1 rayP 4 g0 =
        color sceneP 1
          (Ray.through (rayP.point_at (cast_ray sceneP rayP).distance)
            (rayP.point_at (cast_ray sceneP rayP).distance
              + reflect rayP.direction (cast_ray sceneP rayP).normal))
          4 g0 := by
  have hhit : (cast_ray sceneP rayP).hit = true := by rw [cast_ray_plane]; rfl
  have hr : (cast_ray sceneP rayP).material.roughness = 0 := by
    rw [cast_ray_plane]
    rfl
  exact ⟨hhit, hr, (specular_term_structure sceneP rayP 1 4 g0 hhit).1 hr⟩

/-- C8: every recursive call the integrator spawns has bounce budget
exactly the parent's minus one and sample count at most the parent's,
and any chain of spawned calls starting from bounce budget `B` has
length at most `B`. -/
theorem bounce_budget_monotone :
    (∀ (h m : Bool) (b samples : ℕ) (p : ℕ × ℕ),
        p ∈ child_budgets h b samples m → p.1 = b - 1 ∧ p.1 < b ∧ p.2 ≤ samples) ∧
      (∀ (n B S : ℕ) (f : ℕ → ℕ × ℕ) (hs ms : ℕ → Bool), f 0 = (B, S) →
        (∀ i, i < n → f (i + 1) ∈ child_budgets (hs i) (f i).1 (f i).2 (ms i)) →
        n ≤ B) := by
  constructor
  · intro h m b samples p hp
    obtain ⟨_, hb, h1, h2⟩ := child_budgets_mem h m b samples p hp
    exact ⟨h1, by omega, h2⟩
  · intro n B S f hs ms h0 hchain
    have hinv : ∀ k, k ≤ n → (f k).1 + k = B := by
      intro k
      induction k with
      | zero => intro _; rw [h0]; simp
      | succ j ih =>
        intro hk
        have hj : j < n := by omega
        obtain ⟨_, hb, h1, _⟩ := child_budgets_mem _ _ _ _ _ (hchain j hj)
        have hih := ih (by omega)
        omega
    have hn := hinv n (le_refl n)
    omega

/-- Witness for C8: the mirror call out of `(3, 16)` and a three-level
chain out of bounce budget 3. -/
theorem bounce_budget_monotone_witness :
    (((2 : ℕ), (16 : ℕ)).1 = 3 - 1 ∧ ((2 : ℕ), (16 : ℕ)).1 < 3 ∧
        ((2 : ℕ), (16 : ℕ)).2 ≤ 16) ∧
      (3 : ℕ) ≤ 3 :=
  ⟨bounce_budget_monotone.1 true true 3 16 (2, 16) (by decide),
    bounce_budget_monotone.2 3 3 16 (fun i => (3 - i, 16)) (fun _ => true)
      (fun _ => true) rfl (by decide)⟩

/-- C9: the integrator spawns secondary rays at the exact hit position
with no outward bias — a diffuse scatter ray built at a hit point of the
half-space (sample drawn as the zero vector) starts on the surface and
the marching solver immediately re-detects the originating surface at
depth 0, even though the ray points away from it, exactly as the
source's own TODO admits. -/
theorem self_intersection_at_spawn :
    (Ray.through (⟨0, 0, 0⟩ : Vec3)
        ((⟨0, 0, 0⟩ : Vec3) + (⟨0, 0, 1⟩ : Vec3) + (sample_sphere g0).1)).origin
      = (⟨0, 0, 0⟩ : Vec3) ∧
      Ray.through (⟨0, 0, 0⟩ : Vec3)
        ((⟨0, 0, 0⟩ : Vec3) + (⟨0, 0, 1⟩ : Vec3) + (sample_sphere g0).1) = rayZ ∧
      hit_march [planeM] rayZ = CastResult.new true 0 ⟨0, 0, 1⟩ matBright := by
  refine ⟨rfl, ?_, hit_march_trapped⟩
  rw [Ray.through]
  have hv : ((⟨0, 0, 0⟩ : Vec3) + (⟨0, 0, 1⟩ : Vec3) + (sample_sphere g0).1)
      - (⟨0, 0, 0⟩ : Vec3) = (⟨0, 0, 1⟩ : Vec3) := by
    norm_num [sample_sphere, g0]
  rw [hv, Vec3.unit_z]
  norm_num [rayZ]

/-- C10: `render` hard-codes a 120-degree field of view, placing the
image plane at `z = 1 / tan(to_radians(120) / 2)`; the scene contributes
only the camera ray's origin to the primary ray, whose direction is
identical across scenes. -/
theorem primary_ray_fixed_fov (s1 s2 : Scene) (uv : ℝ × ℝ) (res : ℕ × ℕ) (g : RNG) :
    render s1 uv res g =
      (color s1 MAX_BOUNCES
        (Ray.new s1.camera.ray.origin
          (Vec3.unit
            ⟨uv.1 / (res.1 : ℝ) * ((res.1 : ℝ) / (res.2 : ℝ))
                - ((res.1 : ℝ) / (res.2 : ℝ)) * 0.5,
              uv.2 / (res.2 : ℝ) - 0.5,
              -(1 / Real.tan (120 * (Real.pi / 180) / 2))⟩))
        SAMPLES g).1 ∧
      (render_ray s1 uv res).direction = (render_ray s2 uv res).direction ∧
      (render_ray s1 uv res).origin = s1.camera.ray.origin :=
  ⟨rfl, rfl, rfl⟩

end

end Keikan
